import Mathlib

/-!
Verification of the statistical core of the MIAX14 price-series / portfolio
repository: a shallow embedding in Lean 4 of `src/models/price_series.py`,
`src/models/portfolio.py` and `src/processors/cleaner.py`, together with
proofs and refutations of the specified properties.

Modelling conventions:
* Machine floats are modelled by `ℚ`.  A pandas `NaN` cell or statistic is
  modelled by `Option ℚ` (`none` = NaN / non-finite).
* Dates (pandas timestamps) are modelled by `ℤ`, one unit per calendar day.
* The Sharpe ratio and annualized volatility contain the irrational factor
  `Real.sqrt 252` (and the square root inside the standard deviation), so the
  embedding tracks them through exact rational squares: `var_return`
  is the square of pandas' `std_return` (sample standard deviation), and
  `sharpe_sq` is the signed square `s * |s|` of the Sharpe ratio
  `s = mean / std * sqrt 252`, i.e. `252 * mean * |mean| / var`.  This is an
  exact, order-preserving encoding: it is zero, positive or negative exactly
  when the Sharpe ratio is, and it determines the Sharpe ratio uniquely.
* Exceptions raised by the Python code are modelled with `Except Err`.
* In-place mutation is modelled by explicit state passing: an operation that
  can mutate an argument returns, besides its result, the post-state of that
  argument.
-/

/-- Exceptions raised by the embedded code. -/
inductive Err where
  /-- `ValueError("DataFrame debe contener: ['date', 'close']")` from
  `PriceSeries._validate_data`. -/
  | missingColumns
  /-- `ValueError` from `Portfolio.__post_init__` when holdings and weights
  key sets differ. -/
  | weightMismatch
  /-- `ValueError(f"Método desconocido: {method}")` from
  `DataCleaner.remove_outliers`. -/
  | unsupportedMethod
  /-- pandas `IndexingError`: unalignable boolean Series used as an indexer. -/
  | indexingError
  /-- `IndexError` from `iloc` on an empty frame. -/
  | indexError
  /-- Python `ZeroDivisionError` (float division by zero). -/
  | zeroDivision
  /-- `AttributeError`: the built-in `int` has no pandas methods. -/
  | attributeError
  /-- pandas `ValueError` (empty `date_range` endpoints, or reindexing on an
  axis with duplicate labels). -/
  | valueError
  /-- Python `NameError`: `cleaner.py` contains no import statements, so the
  module-global names `pd`, `np` and `PriceSeries` it references are unbound
  and raise at first lookup. -/
  | nameError
deriving DecidableEq

/-! ### Column-name handling (`PriceSeries._validate_data` step 1 and
`PriceSeries._standardize_columns`)

This facet of `__post_init__` is independent of cell values, so it is
modelled at the level of the list of column names.  The numeric model of the
frame below takes the `date` and `close` columns as already resolved. -/

/-- Python `str.lower()` on a column name. -/
def lowerName (s : String) : String := String.mk (s.data.map Char.toLower)

/-- The alias table of `PriceSeries._standardize_columns`. -/
def column_mapping : List (String × String) :=
  [("Date", "date"), ("Close", "close"), ("Open", "open"), ("High", "high"),
   ("Low", "low"), ("Volume", "volume"), ("Adj Close", "adj_close")]

/-- `PriceSeries._standardize_columns`: `rename(columns=column_mapping)`
followed by `columns.str.lower()`. -/
def standardize_columns (cols : List String) : List String :=
  (cols.map (fun c => ((column_mapping.lookup c).getD c))).map lowerName

/-- The required-column check of `PriceSeries._validate_data`:
`all(col in data.columns for col in ['date', 'close'])`. -/
def validate_required_columns (cols : List String) : Bool :=
  ["date", "close"].all (fun c => cols.contains c)

/-- The column-name effect of `PriceSeries.__post_init__`: `_validate_data`
(which checks the raw names) runs first, `_standardize_columns` second. -/
def post_init_columns (cols : List String) : Except Err (List String) :=
  if validate_required_columns cols then .ok (standardize_columns cols)
  else .error .missingColumns

/-! ### The numeric frame and the statistics engine -/

/-- One observation row: (date, close). -/
abbrev Row : Type := ℤ × ℚ

/-- The `date`/`close` content of a pandas DataFrame handed to `PriceSeries`.
`datesDt` records whether the `date` column already has datetime dtype
(`pd.api.types.is_datetime64_any_dtype`); `pd.to_datetime` is modelled as
setting the flag, keeping the day values. -/
structure DataFrame where
  rows : List Row
  datesDt : Bool

/-- `Series.pct_change().dropna()` on the close column: the stream
`close[i]/close[i-1] - 1` for `i ≥ 1`, of length `n - 1`.  (In pandas it is
labelled by the integer index `1..n-1`; the positional labelling is
reconstructed where alignment matters.) -/
def pct_change : List ℚ → List ℚ
  | a :: b :: rest => (b / a - 1) :: pct_change (b :: rest)
  | _ => []

/-- `Series.cumprod()` with initial accumulator `acc`. -/
def cumprodAux (acc : ℚ) : List ℚ → List ℚ
  | [] => []
  | x :: xs => (acc * x) :: cumprodAux (acc * x) xs

/-- `Series.cumprod()`. -/
def cumprodQ (l : List ℚ) : List ℚ := cumprodAux 1 l

/-- `Series.expanding().max()` with running maximum `m`. -/
def runMaxAux (m : ℚ) : List ℚ → List ℚ
  | [] => []
  | x :: xs => (max m x) :: runMaxAux (max m x) xs

/-- `Series.expanding().max()`. -/
def runMax : List ℚ → List ℚ
  | [] => []
  | x :: xs => x :: runMaxAux x xs

/-- `Series.min()` (skips nothing here; `none` models the NaN produced on an
empty series). -/
def minQ : List ℚ → Option ℚ
  | [] => none
  | x :: xs => some ((minQ xs).elim x (fun m => min x m))

/-- `Series.mean()` as a total rational (junk on `[]`; see `meanO`). -/
def meanQ (l : List ℚ) : ℚ := l.sum / l.length

/-- `Series.mean()`: NaN (`none`) on an empty stream. -/
def meanO (l : List ℚ) : Option ℚ :=
  if l.isEmpty then none else some (meanQ l)

/-- The square of the pandas sample standard deviation (`ddof = 1`), as a
total rational (junk below two points; see `varO`). -/
def svarQ (l : List ℚ) : ℚ :=
  ((l.map (fun x => (x - meanQ l)^2)).sum) / ((l.length : ℚ) - 1)

/-- Square of `Series.std()`: NaN (`none`) on fewer than two points. -/
def varO (l : List ℚ) : Option ℚ :=
  if 2 ≤ l.length then some (svarQ l) else none

/-- Signed square of `mean / std * sqrt 252` for `std = sqrt v`:
`252 * m * |m| / v` (see the header on the squared encoding). -/
def sharpeSqFormula (m v : ℚ) : ℚ := 252 * (m * |m|) / v

/-- The per-asset Sharpe ratio of `_calculate_basic_stats`, in signed-square
encoding: `mean/std*sqrt(252) if std > 0 else 0`.  A NaN std (fewer than two
returns) fails the `> 0` comparison, so the guard also yields `0` there. -/
def sharpe_sq_series (l : List ℚ) : ℚ :=
  ((varO l).map (fun v => if 0 < v then sharpeSqFormula (meanQ l) v else 0)).getD 0

/-- `PriceSeries._calculate_max_drawdown`: cumulative product of
`1 + pct_change` (the leading NaN return is skipped by `cumprod`/
`expanding().max()`/`min()`), running maximum, relative drawdown, minimum.
`none` models the NaN outcome on a series with fewer than two rows. -/
def calculate_max_drawdown (closes : List ℚ) : Option ℚ :=
  let c := cumprodQ ((pct_change closes).map (fun r => 1 + r))
  minQ (List.zipWith (fun x m => (x - m) / m) c (runMax c))

/-- The `_stats` dict of a `PriceSeries` (see the header: `var_return` is the
square of `std_return`, `sharpe_sq` the signed square of `sharpe_ratio`,
`vol_sq` the square of `volatility = std_return * sqrt 252`). -/
structure SeriesStats where
  mean_return : Option ℚ
  var_return : Option ℚ
  sharpe_sq : ℚ
  total_return : ℚ
  vol_sq : Option ℚ
  max_drawdown : Option ℚ

/-- `PriceSeries._calculate_basic_stats` on the close column (the caller
guarantees at least one row, as `iloc[0]`/`iloc[-1]` would otherwise raise). -/
def calculate_basic_stats (closes : List ℚ) : SeriesStats :=
  let returns := pct_change closes
  { mean_return := meanO returns
    var_return := varO returns
    sharpe_sq := sharpe_sq_series returns
    total_return := closes.getLastD 0 / closes.headD 0 - 1
    vol_sq := (varO returns).map (fun v => 252 * v)
    max_drawdown := calculate_max_drawdown closes }

/-- A validated `PriceSeries`. -/
structure PriceSeries where
  symbol : String
  data : DataFrame
  source : String
  assetType : String
  stats : SeriesStats

/-- Row order used by `sort_values('date')`. -/
def rowLe (a b : Row) : Prop := a.1 ≤ b.1

instance : DecidableRel rowLe := fun a b => Int.decLe a.1 b.1

instance : IsTotal Row rowLe := ⟨fun a b => Int.le_total a.1 b.1⟩

instance : IsTrans Row rowLe := ⟨fun _ _ _ h h' => le_trans h h'⟩

/-- `data.sort_values('date').reset_index(drop=True)`.  (pandas does not
promise stability for the default sort kind; only the date order of the
result is relied upon.) -/
def sortRows (rows : List Row) : List Row := List.insertionSort rowLe rows

/-- `PriceSeries.__post_init__` on the resolved frame (the raw column-name
check is `post_init_columns` above).  Returns the constructed series and the
post-state of the caller's frame: `_validate_data` coerces the `date` column
with an in-place assignment when it is not already datetime, then rebinds
`self.data` to a sorted copy, so that is the only mutation the caller sees.
`_calculate_basic_stats` raises `IndexError` on an empty frame (`iloc[0]`). -/
def construct (symbol : String) (df : DataFrame) (source assetType : String) :
    Except Err PriceSeries × DataFrame :=
  let dfAfter := if df.datesDt then df else { df with datesDt := true }
  let sorted := sortRows dfAfter.rows
  (if sorted.isEmpty then .error .indexError
   else
    .ok { symbol := symbol
          data := { rows := sorted, datesDt := true }
          source := source
          assetType := assetType
          stats := calculate_basic_stats (sorted.map (fun r => r.2)) }, dfAfter)

/-- The close column of a constructed series. -/
def closesOf (ps : PriceSeries) : List ℚ := ps.data.rows.map (fun r => r.2)

/-- The date column of a constructed series. -/
def datesOf (ps : PriceSeries) : List ℤ := ps.data.rows.map (fun r => r.1)

/-- `PriceSeries.get_returns`. -/
def get_returns (ps : PriceSeries) : List ℚ := pct_change (closesOf ps)

/-! ### Portfolio (`src/models/portfolio.py`) -/

/-- A constructed `Portfolio`.  Python dicts preserve insertion order, so
holdings and weights are association lists.  `rescaled` records the printed
normalization warning of `__post_init__` (the observable flag). -/
structure Portfolio where
  holdings : List (String × PriceSeries)
  weights : List (String × ℚ)
  rescaled : Bool

/-- `np.isclose(total, 1.0)` with numpy defaults
(`|a - b| ≤ atol + rtol * |b|`, `rtol = 1e-5`, `atol = 1e-8`). -/
def isclose1 (t : ℚ) : Bool := |t - 1| ≤ 1/100000 + 1/100000000

/-- Key-set equality of two association lists
(`set(holdings.keys()) == set(weights.keys())`). -/
def sameKeys (a b : List String) : Bool :=
  a.all (fun s => b.contains s) && b.all (fun s => a.contains s)

/-- The key-set check at the end of `Portfolio.__post_init__`, applied to the
(possibly normalized) weights `w` and the warning flag. -/
def mkPortfolioKeys (holdings : List (String × PriceSeries))
    (w : List (String × ℚ)) (flag : Bool) : Except Err Portfolio :=
  if sameKeys (holdings.map (fun p => p.1)) (w.map (fun p => p.1)) then
    .ok { holdings := holdings, weights := w, rescaled := flag }
  else .error .weightMismatch

/-- `Portfolio.__post_init__`: normalize the weights when their sum is not
close to 1 (`v / total` per entry — the comprehension over an empty dict
performs no division, while a nonempty dict with `total = 0` raises
`ZeroDivisionError` at the first entry), then check the key sets. -/
def mkPortfolio (holdings : List (String × PriceSeries))
    (weights : List (String × ℚ)) : Except Err Portfolio :=
  let total := (weights.map (fun p => p.2)).sum
  if isclose1 total then mkPortfolioKeys holdings weights false
  else if weights.isEmpty then mkPortfolioKeys holdings [] true
  else if total = 0 then .error .zeroDivision
  else mkPortfolioKeys holdings
    (weights.map (fun p => (p.1, p.2 / total))) true

/-- The value `Portfolio.get_portfolio_returns` evaluates to: a pandas Series
of weighted returns, or — when holdings is empty, so that Python's `sum`
receives no series — the built-in int `0`. -/
inductive PRet where
  | series (vals : List ℚ)
  | scalar (q : ℚ)

/-- The weight looked up for a held symbol. -/
def weightOf (P : Portfolio) (s : String) : ℚ :=
  ((P.weights.find? (fun p => p.1 == s)).map (fun p => p.2)).getD 0

/-- Length of the shortest held frame. -/
def minRowLen (hs : List (String × PriceSeries)) : ℕ :=
  match hs with
  | [] => 0
  | h :: t => t.foldl (fun acc p => min acc p.2.data.rows.length)
      h.2.data.rows.length

/-- `Portfolio.get_portfolio_returns`.  Each `get_returns` Series is labelled
by the integer index `1..n_s-1` (the frame's index was reset at
construction), so the column assignments into `all_returns` align on those
integer labels: the resulting index is the first stream's labels, each column
is NaN on labels the stream lacks, and `dropna()` keeps exactly the labels
`1..m-1` where `m` is the length of the shortest held frame.  The kept entry
at label `i` is `Σ_s returns_s[i] * weight_s` — a positional, not a
date-based, alignment. -/
def get_portfolio_returns (P : Portfolio) : PRet :=
  match P.holdings with
  | [] => .scalar 0
  | _ :: _ =>
    let m := minRowLen P.holdings
    .series ((List.range (m - 1)).map (fun i =>
      (P.holdings.map (fun sp =>
        (get_returns sp.2).getD i 0 * weightOf P sp.1)).sum))

/-- The underlying value list of the portfolio return stream (empty for the
scalar-0 degenerate case). -/
def portfolio_return_vals (P : Portfolio) : List ℚ :=
  match get_portfolio_returns P with
  | .series vals => vals
  | .scalar _ => []

/-- A held symbol's return stream keyed by date: entry `i ≥ 1` of the frame
contributes `(date[i], close[i]/close[i-1] - 1)`. -/
def dated_returns (ps : PriceSeries) : List (ℤ × ℚ) :=
  List.zip (datesOf ps).tail (get_returns ps)

/-- Follows the spec's words (§4.3 `portfolioReturns`), for comparison with
`get_portfolio_returns`: align the held return streams on common dates
(inner join — a date missing from any held stream is dropped), and on each
retained date take `Σ_s return_s(date) * weight_s`; empty holdings give an
empty stream. -/
def portfolio_returns_spec (P : Portfolio) : List (ℤ × ℚ) :=
  match P.holdings with
  | [] => []
  | (_, ps0) :: rest =>
    ((dated_returns ps0).filter (fun dr =>
        rest.all (fun sp => (dated_returns sp.2).any (fun dr2 => dr2.1 == dr.1)))).map
      (fun dr => (dr.1, (P.holdings.map (fun sp =>
        (((dated_returns sp.2).find? (fun dr2 => dr2.1 == dr.1)).map
          (fun dr2 => dr2.2)).getD 0 * weightOf P sp.1)).sum))

/-- The dict returned by `Portfolio.get_stats`, in the squared encoding of
the header.  All fields are `Option ℚ` because every one of them is a plain
float expression with no guard: `none` models a non-finite float (NaN from a
degenerate stream, or the unguarded `mean/std` division with `std = 0`,
which yields `inf`/`nan` rather than raising). -/
structure PortStats where
  mean_return : Option ℚ
  var_return : Option ℚ
  sharpe_sq : Option ℚ
  ann_return : Option ℚ
  ann_vol_sq : Option ℚ

/-- `Portfolio.get_stats`.  On empty holdings the return stream is the int
`0`, which has no `.mean()` — `AttributeError`.  Unlike
`_calculate_basic_stats`, the Sharpe expression has no `std > 0` guard. -/
def portfolio_get_stats (P : Portfolio) : Except Err PortStats :=
  match get_portfolio_returns P with
  | .scalar _ => .error .attributeError
  | .series vals => .ok
    { mean_return := meanO vals
      var_return := varO vals
      sharpe_sq := (meanO vals).bind (fun m => (varO vals).bind (fun v =>
        if v = 0 then none else some (sharpeSqFormula m v)))
      ann_return := (meanO vals).map (fun m => 252 * m)
      ann_vol_sq := (varO vals).map (fun v => 252 * v) }

/-- `Portfolio.monte_carlo_simulation`.  `np.random.normal(mean, std, n_days)`
is modelled by an abstract sampling oracle receiving the fitted parameters:
the mean and the *square* of the std (an equivalent parametrization, since
the irrational `std = sqrt var` cannot be carried in `ℚ`), plus the
simulation and day counters; `Option` arguments model NaN parameters from a
degenerate stream.  Each trial compounds `initial * (1 + draws).cumprod()`. -/
def monte_carlo_simulation (P : Portfolio)
    (normal : Option ℚ → Option ℚ → ℕ → ℕ → ℚ)
    (nSimulations nDays : ℕ) (initialInvestment : ℚ) :
    Except Err (List (List ℚ)) :=
  match get_portfolio_returns P with
  | .scalar _ => .error .attributeError
  | .series vals => .ok
    ((List.range nSimulations).map (fun i =>
      (cumprodQ (((List.range nDays).map (fun j =>
          normal (meanO vals) (varO vals) i j)).map (fun r => 1 + r))).map
        (fun c => initialInvestment * c)))

/-- Follows the claim's words (spec §4.4), for comparison with
`monte_carlo_simulation`: a matrix of shape `(n, d)` whose row `i` is the
value path `v0 * Π_{j ≤ k} (1 + r_ij)` over i.i.d. draws from the normal
distribution fitted to the given mean/variance. -/
def mcClaim (normal : Option ℚ → Option ℚ → ℕ → ℕ → ℚ)
    (μ σsq : Option ℚ) (n d : ℕ) (v0 : ℚ) : List (List ℚ) :=
  (List.range n).map (fun i => (List.range d).map (fun k =>
    v0 * ((List.range (k + 1)).map (fun j => 1 + normal μ σsq i j)).prod))

/-! ### DataCleaner (`src/processors/cleaner.py`) -/

/-- `Series.quantile(q)` with the pandas default linear interpolation:
on the sorted values `s` of length `m`, the value at fractional position
`q * (m - 1)`.  `none` models the NaN on an empty series. -/
def quantileQ (l : List ℚ) (q : ℚ) : Option ℚ :=
  let s := List.insertionSort (fun a b : ℚ => a ≤ b) l
  if s.isEmpty then none
  else
    let p := q * ((s.length : ℚ) - 1)
    let lo := ⌊p⌋
    let hi := ⌈p⌉
    some (s.getD lo.toNat 0 + (s.getD hi.toNat 0 - s.getD lo.toNat 0) * (p - lo))

/-- The IQR mask of `remove_outliers`:
`(returns >= Q1 - 1.5*IQR) & (returns <= Q3 + 1.5*IQR)`.  Comparisons with a
NaN quantile (empty stream) are all false. -/
def iqrMask (returns : List ℚ) : List Bool :=
  match quantileQ returns (1/4), quantileQ returns (3/4) with
  | some q1, some q3 =>
    let iqr := q3 - q1
    returns.map (fun r =>
      decide (q1 - 3/2 * iqr ≤ r) && decide (r ≤ q3 + 3/2 * iqr))
  | _, _ => returns.map (fun _ => false)

/-- pandas boolean-Series indexing `df[mask]` where the mask carries integer
labels `maskStart ..`: the mask is aligned to the frame's labels
`0 .. rows.length - 1`, and a frame label absent from the mask's index makes
the indexer unalignable — `IndexingError`.  Otherwise the rows whose aligned
mask entry is true are kept. -/
def boolIndex (rows : List Row) (maskStart : ℕ) (mask : List Bool) :
    Except Err (List Row) :=
  if (List.range rows.length).all
      (fun l => decide (maskStart ≤ l) && decide (l < maskStart + mask.length))
  then .ok (((rows.enum).filter
      (fun rl => mask.getD (rl.1 - maskStart) false)).map (fun rl => rl.2))
  else .error .indexingError

/-- `DataCleaner.remove_outliers`.  The IQR branch uses only methods and
operators of the local `returns` Series, so it really computes its mask; the
z-score branch starts with `np.abs(...)`, and `np` is an unbound name in
import-less `cleaner.py`, so it raises `NameError` before any mask exists.
A computed mask carries the return-stream labels `1..n-1`, and
`series.data[mask]` aligns it to the frame labels `0..n-1`; if that indexing
ever succeeded, the final `return PriceSeries(...)` would itself raise
`NameError` (`PriceSeries` is likewise unbound in `cleaner.py`, and Python
resolves the callee before its arguments).  Returns the result together with
the (unchanged) post-state of the input. -/
def remove_outliers (ps : PriceSeries) (method : String) (threshold : ℚ) :
    Except Err PriceSeries × PriceSeries :=
  let returns := get_returns ps
  let maskE : Except Err (List Bool) :=
    if method = "iqr" then .ok (iqrMask returns)
    else if method = "zscore" then .error .nameError
    else .error .unsupportedMethod
  (match maskE with
   | .error e => .error e
   | .ok mask =>
     match boolIndex ps.data.rows 1 mask with
     | .error e => .error e
     | .ok _ => .error .nameError, ps)

/-- The shape of the series `fill_missing_dates` is written to build (after
reindexing, the close column could hold NaN, hence `Option ℚ`).  No call
ever produces one — see `fill_missing_dates`. -/
structure FilledSeries where
  symbol : String
  rows : List (ℤ × Option ℚ)
  source : String
  assetType : String

/-- `DataCleaner.fill_missing_dates`.  `cleaner.py` has no import
statements, so `pd` is an unbound module-global name: the very first
statement, `pd.date_range(...)`, raises `NameError` on every call, for every
method name, before any argument (even `series.data['date'].min()`) is
evaluated — Python resolves the callee expression first.  The intended
reindex-and-fill logic, and the claimed `UnsupportedMethod` dispatch, are
unreachable.  The input series is returned unchanged as the post-state: the
call raises before touching it. -/
def fill_missing_dates (ps : PriceSeries) (method : String) :
    Except Err FilledSeries × PriceSeries :=
  (.error .nameError, ps)

/-! ### Concrete instances used by the counterexamples and witnesses -/

/-- A constructed series with constant returns `[1, 1]` (closes 100, 200,
400): its return stream has zero sample standard deviation.  Equal to the
output of `construct` on the already-sorted, already-datetime frame. -/
def psConstRet : PriceSeries :=
  { symbol := "A", data := { rows := [(1, 100), (2, 200), (3, 400)], datesDt := true },
    source := "test", assetType := "stock",
    stats := calculate_basic_stats [100, 200, 400] }

/-- A single-asset portfolio over `psConstRet` with weight 1. -/
def pfConstRet : Portfolio :=
  { holdings := [("A", psConstRet)], weights := [("A", 1)], rescaled := false }

/-- A constructed series with returns `[1/10, 1/5]` (closes 100, 110, 132):
nonzero return variance. -/
def psRamp : PriceSeries :=
  { symbol := "A", data := { rows := [(1, 100), (2, 110), (3, 132)], datesDt := true },
    source := "test", assetType := "stock",
    stats := calculate_basic_stats [100, 110, 132] }

/-- A single-asset portfolio over `psRamp` with weight 1. -/
def pfRamp : Portfolio :=
  { holdings := [("A", psRamp)], weights := [("A", 1)], rescaled := false }

/-- Asset A of the alignment scenario: days 1, 2, 3. -/
def psAlignA : PriceSeries :=
  { symbol := "A", data := { rows := [(1, 100), (2, 110), (3, 121)], datesDt := true },
    source := "t", assetType := "u",
    stats := calculate_basic_stats [100, 110, 121] }

/-- Asset B of the alignment scenario: days 1, 3, 4 — day 2 missing. -/
def psAlignB : PriceSeries :=
  { symbol := "B", data := { rows := [(1, 100), (3, 120), (4, 126)], datesDt := true },
    source := "t", assetType := "u",
    stats := calculate_basic_stats [100, 120, 126] }

/-- The 50/50 portfolio over the alignment scenario. -/
def pfAlign : Portfolio :=
  { holdings := [("A", psAlignA), ("B", psAlignB)],
    weights := [("A", 1/2), ("B", 1/2)], rescaled := false }

/-- The portfolio produced by normalizing the input weights `A ↦ 3, B ↦ 1`
(total 4): weights rescaled to `3/4, 1/4` and the warning flag set. -/
def pfW8 : Portfolio :=
  { holdings := [("A", psRamp), ("B", psConstRet)],
    weights := [("A", 3/4), ("B", 1/4)], rescaled := true }

/-- The stats dict `Portfolio.get_stats` yields on `pfRamp` (return stream
`[1/10, 1/5]`): mean `3/20`, squared std `1/200`, squared Sharpe `1134`,
annualized return `189/5`, squared annualized volatility `63/50`. -/
def stRamp : PortStats :=
  { mean_return := some (3/20), var_return := some (1/200),
    sharpe_sq := some 1134, ann_return := some (189/5), ann_vol_sq := some (63/50) }

/-- A constructed series whose price falls from its first close (100 → 90):
its drawdown computation still reports 0. -/
def psDown : PriceSeries :=
  { symbol := "A", data := { rows := [(1, 100), (2, 90)], datesDt := true },
    source := "t", assetType := "u",
    stats := calculate_basic_stats [100, 90] }

/-- A constructed series obtained from an unsorted, not-yet-datetime frame
(input rows day 2 before day 1). -/
def psW2 : PriceSeries :=
  { symbol := "W", data := { rows := [(1, 100), (2, 50)], datesDt := true },
    source := "t", assetType := "u",
    stats := calculate_basic_stats [100, 50] }

/-! ## Helper lemmas -/

/-- `pct_change` yields one return per consecutive pair of closes. -/
theorem pct_change_length : (l : List ℚ) → (pct_change l).length = l.length - 1
  | [] => rfl
  | [_] => rfl
  | a :: b :: rest => by
    have h : pct_change (a :: b :: rest) = (b / a - 1) :: pct_change (b :: rest) := rfl
    rw [h, List.length_cons, pct_change_length (b :: rest)]
    simp

/-- The IQR mask has one entry per return. -/
theorem iqrMask_length (l : List ℚ) : (iqrMask l).length = l.length := by
  unfold iqrMask
  rcases quantileQ l (1/4) with _ | q1 <;> rcases quantileQ l (3/4) with _ | q3 <;> simp

/-- `remove_outliers` with method `iqr` raises the pandas `IndexingError` on
every series with at least one row: the boolean mask is labelled `1..n-1`
while the frame is labelled `0..n-1`, so label `0` is never covered. -/
theorem remove_iqr_raises (ps : PriceSeries) (t : ℚ) (h : ps.data.rows ≠ []) :
    (remove_outliers ps "iqr" t).1 = .error .indexingError := by
  have hn : 0 < ps.data.rows.length := List.length_pos.mpr h
  have hmem : (0 : ℕ) ∈ List.range ps.data.rows.length := List.mem_range.mpr hn
  have hfalse : ((List.range ps.data.rows.length).all
      (fun l => decide (1 ≤ l) && decide (l < 1 + (iqrMask (get_returns ps)).length))) = false := by
    rw [List.all_eq_false]
    exact ⟨0, hmem, by simp⟩
  unfold remove_outliers boolIndex
  simp [hfalse]

/-- C5: `remove_outliers` with method `iqr` never returns a filtered series:
on the concrete constructed series `psRamp` (three rows, days 1..3) it raises
the pandas `IndexingError`, because the boolean mask built over the return
stream (labels 1..n-1) cannot be aligned to the frame (labels 0..n-1) — the
anchor row's label is missing from the mask, so no row at all is retained and
no `PriceSeries` is returned.  The claim (anchor always retained, result a
subset) is the intended behaviour, not the actual one. -/
theorem c5_remove_outliers_always_raises :
    (remove_outliers psRamp "iqr" 3).1 = .error .indexingError :=
  remove_iqr_raises psRamp 3 (by simp [psRamp])

/-- C6: construction rejects the capitalized aliases that
`_standardize_columns` exists to accept: `_validate_data` checks the raw
names before any renaming happens, so a frame with columns `Date`, `Close`
fails with the missing-columns error even though the alias table itself maps
exactly those names to `date`, `close`. -/
theorem c6_alias_rejected :
    post_init_columns ["Date", "Close"] = .error .missingColumns ∧
    standardize_columns ["Date", "Close"] = ["date", "close"] := by
  constructor
  · rfl
  · decide

/-- C10 counterexample: constructing a `PriceSeries` from a frame whose date
column is not yet datetime coerces that column in place — the caller's
DataFrame is mutated, not left unchanged. -/
theorem c10_construct_mutates :
    (construct "AAPL" { rows := [(1, 100)], datesDt := false } "yahoo" "stock").2 ≠
      { rows := [(1, 100)], datesDt := false } := by
  intro h
  have h2 := congrArg DataFrame.datesDt h
  simp [construct] at h2

/-- C10 amended: the precise mutation discipline.  Construction returns the
caller's frame coerced in place exactly when its date column was not already
datetime; `remove_outliers` and `fill_missing_dates` never mutate the input
series (every pandas operation they use builds a new frame; `remove_outliers`
additionally raises before returning anything). -/
theorem c10_mutation_semantics (sym src aty mth mth2 : String) (df : DataFrame)
    (ps ps2 : PriceSeries) (t : ℚ) :
    (construct sym df src aty).2 =
      (if df.datesDt then df else { df with datesDt := true }) ∧
    (remove_outliers ps mth t).2 = ps ∧
    (fill_missing_dates ps2 mth2).2 = ps2 :=
  ⟨rfl, rfl, rfl⟩

/-- C8 counterexample: the empty portfolio is constructed successfully (the
normalizing dict comprehension over an empty dict performs no division, the
warning is printed, and the key-set check trivially passes), yet its weights
sum to 0, not 1: the weight-sum invariant fails at the empty input. -/
theorem c8_counterexample :
    mkPortfolio [] [] = .ok { holdings := [], weights := [], rescaled := true } ∧
    ¬ (|((0 : ℚ)) - 1| ≤ 1/100000 + 1/100000000) := by
  constructor
  · unfold mkPortfolio mkPortfolioKeys
    norm_num [isclose1, sameKeys]
  · norm_num [abs_of_nonpos]

/-- C2 counterexample: a frame with a duplicated date is accepted by
construction unchecked — the constructed observations are `[(1, 100),
(1, 200)]`, whose dates are *not* strictly ascending and contain a
duplicate.  `sort_values` only sorts; nothing rejects or drops ties. -/
theorem c2_counterexample :
    ((construct "A" { rows := [(1, 100), (1, 200)], datesDt := true } "t" "u").1.map
        datesOf) = .ok [1, 1] ∧
    ¬ List.Chain' (· < ·) [(1 : ℤ), 1] := by
  constructor
  · simp [construct, sortRows, List.insertionSort, List.orderedInsert, rowLe, datesOf,
      Except.map]
  · simp

/-- C3 counterexample: the series with closes `[100, 90]` has `max_drawdown
= 0` although its close series is strictly decreasing.  The leading NaN of
`pct_change` makes the cumulative index start at the *second* observation,
so the initial peak is invisible to the drawdown computation. -/
theorem c3_counterexample :
    ((construct "A" { rows := [(1, 100), (2, 90)], datesDt := true } "t" "u").1.map
        (fun ps => (ps.stats.max_drawdown, closesOf ps))) = .ok (some 0, [100, 90]) ∧
    ¬ List.Chain' (· ≤ ·) [(100 : ℚ), 90] := by
  constructor
  · norm_num [construct, sortRows, List.insertionSort, List.orderedInsert, rowLe,
      calculate_basic_stats, calculate_max_drawdown, pct_change, cumprodQ, cumprodAux,
      runMax, runMaxAux, minQ, closesOf, Except.map]
  · norm_num [List.chain'_cons]

/-- C4 counterexample: on the single-asset portfolio over `psConstRet` the
portfolio return stream is the constant `[1, 1]` — zero sample standard
deviation — and `Portfolio.get_stats` evaluates the *unguarded*
`mean/std*sqrt(252)`: the result is the non-finite float `inf` (`none` in
the model), not the claimed `0`.  The per-asset engine applied to the very
same stream does return `0`, exhibiting the missing guard. -/
theorem c4_counterexample :
    (portfolio_get_stats pfConstRet).map (fun st => st.sharpe_sq) = .ok none ∧
    psConstRet.stats.sharpe_sq = 0 := by
  constructor
  · norm_num [portfolio_get_stats, get_portfolio_returns, pfConstRet, psConstRet,
      minRowLen, get_returns, closesOf, pct_change, weightOf, List.find?, meanO, meanQ,
      varO, svarQ, Except.map, List.range_succ]
  · norm_num [psConstRet, calculate_basic_stats, sharpe_sq_series, varO, svarQ, meanQ,
      pct_change]

/-- C7: `fill_missing_dates` never raises `UnsupportedMethod` — it raises
Python's `NameError` on *every* call, unknown and supported method names
alike, because `cleaner.py` imports nothing and its first statement looks up
the unbound name `pd`.  Evaluated here on the gapped constructed series
(days 0 and 2) with the unrecognized method `"bogus"` and with the supported
method `"ffill"`. -/
theorem c7_fill_raises_name_error :
    ((construct "A" { rows := [(0, 100), (2, 110)], datesDt := true } "t" "u").1.map
        (fun ps => ((fill_missing_dates ps "bogus").1,
                    (fill_missing_dates ps "ffill").1))) =
      .ok (.error .nameError, .error .nameError) := by
  rfl

/-- C1: `get_portfolio_returns` does not align the held return streams on
dates.  Asset A holds days 1, 2, 3 and asset B holds days 1, 3, 4 (day 2
missing), both with weight 1/2.  The date inner join of the two return
streams (spec §4.3, embedded as `portfolio_returns_spec`) retains only day 3,
with value `(1/10)/2 + (1/5)/2 = 3/20`; the code instead pairs the streams by
integer row position, producing *two* entries `[3/20, 3/40]` that each mix
returns of different dates.  Moreover on empty holdings the code returns the
Python int `0`, not an empty stream. -/
theorem c1_portfolio_returns_positional_bug :
    ((construct "A" { rows := [(1, 100), (2, 110), (3, 121)], datesDt := true }
        "t" "u").1.bind (fun a =>
      (construct "B" { rows := [(1, 100), (3, 120), (4, 126)], datesDt := true }
        "t" "u").1.bind (fun b =>
        (mkPortfolio [("A", a), ("B", b)] [("A", 1/2), ("B", 1/2)]).map (fun P =>
          (portfolio_return_vals P, portfolio_returns_spec P)))))
      = .ok ([3/20, 3/40], [(3, 3/20)]) ∧
    (mkPortfolio [] []).map get_portfolio_returns = .ok (.scalar 0) := by
  constructor
  · have hA : (construct "A" { rows := [(1, 100), (2, 110), (3, 121)], datesDt := true }
        "t" "u").1 = .ok psAlignA := by
      simp [construct, sortRows, List.insertionSort, List.orderedInsert, rowLe, psAlignA]
    have hB : (construct "B" { rows := [(1, 100), (3, 120), (4, 126)], datesDt := true }
        "t" "u").1 = .ok psAlignB := by
      simp [construct, sortRows, List.insertionSort, List.orderedInsert, rowLe, psAlignB]
    have hP : mkPortfolio [("A", psAlignA), ("B", psAlignB)] [("A", 1/2), ("B", 1/2)]
        = .ok pfAlign := by
      unfold mkPortfolio mkPortfolioKeys
      norm_num [isclose1, sameKeys, pfAlign]
    have hvals : portfolio_return_vals pfAlign = [3/20, 3/40] := by
      norm_num [portfolio_return_vals, get_portfolio_returns, pfAlign, psAlignA,
        psAlignB, minRowLen, get_returns, closesOf, pct_change, weightOf, List.find?,
        List.range_succ, show (("A" : String) == "B") = false from rfl]
    have hspec : portfolio_returns_spec pfAlign = [(3, 3/20)] := by
      norm_num [portfolio_returns_spec, pfAlign, psAlignA, psAlignB, dated_returns,
        get_returns, closesOf, datesOf, pct_change, weightOf, List.find?,
        show (("A" : String) == "B") = false from rfl,
        show (((2 : ℤ)) == 3) = false from rfl, show (((3 : ℤ)) == 3) = true from rfl,
        show (((4 : ℤ)) == 3) = false from rfl, show (((2 : ℤ)) == 2) = true from rfl]
    rw [hA, hB]
    simp only [Except.bind, hP, Except.map, hvals, hspec]
  · unfold mkPortfolio mkPortfolioKeys
    norm_num [isclose1, sameKeys, Except.map, get_portfolio_returns]

/-- Summing entrywise-divided weights divides the sum. -/
theorem sum_map_div (l : List (String × ℚ)) (t : ℚ) :
    (l.map (fun p => p.2 / t)).sum = ((l.map (fun p => p.2)).sum) / t := by
  induction l with
  | nil => simp
  | cons h tl ih => simp [ih, add_div]

/-- C8 amended: for every successfully constructed portfolio with at least
one weight entry, the stored weights sum to 1 within the `np.isclose`
tolerance, and whenever the input sum was not close to 1 the stored weights
are exactly the input weights divided by their total and the normalization
warning was printed (the `rescaled` flag). -/
theorem c8_weights_renormalized (holdings : List (String × PriceSeries))
    (weights : List (String × ℚ)) (P : Portfolio) (hw : weights ≠ [])
    (h : mkPortfolio holdings weights = .ok P) :
    |((P.weights.map (fun p => p.2)).sum) - 1| ≤ 1/100000 + 1/100000000 ∧
    (isclose1 ((weights.map (fun p => p.2)).sum) = false →
      P.rescaled = true ∧
      P.weights = weights.map (fun p =>
        (p.1, p.2 / ((weights.map (fun q => q.2)).sum)))) := by
  simp only [mkPortfolio, mkPortfolioKeys] at h
  have hne : weights.isEmpty = false := by simpa [List.isEmpty_iff] using hw
  rw [hne] at h
  by_cases hc : isclose1 ((weights.map (fun p => p.2)).sum)
  · rw [if_pos hc] at h
    split at h
    · have hP := (Except.ok.injEq _ _).mp h
      rw [← hP]
      refine ⟨by simpa [isclose1] using hc, fun habs => absurd hc (by simp [habs])⟩
    · exact absurd h (by simp)
  · rw [if_neg hc] at h
    simp only [Bool.false_eq_true, if_false] at h
    by_cases hz : ((weights.map (fun p => p.2)).sum) = 0
    · rw [if_pos hz] at h
      exact absurd h (by simp)
    · rw [if_neg hz] at h
      split at h
      · have hP := (Except.ok.injEq _ _).mp h
        rw [← hP]
        constructor
        · have hsum : ((weights.map (fun p =>
              (p.1, p.2 / ((weights.map (fun q => q.2)).sum)))).map
                (fun p => p.2)).sum = 1 := by
            rw [List.map_map]
            have hcomp : ((fun p : String × ℚ => p.2) ∘ (fun p : String × ℚ =>
                (p.1, p.2 / ((weights.map (fun q => q.2)).sum)))) =
                (fun p : String × ℚ => p.2 / ((weights.map (fun q => q.2)).sum)) := rfl
            rw [hcomp, sum_map_div, div_self hz]
          simp only [hsum]
          norm_num
        · exact fun _ => ⟨rfl, rfl⟩
      · exact absurd h (by simp)

/-- C8 witness: input weights `A ↦ 3, B ↦ 1` are rescaled to `3/4, 1/4`,
flagged, and sum to 1. -/
theorem c8_witness :
    |((pfW8.weights.map (fun p => p.2)).sum) - 1| ≤ 1/100000 + 1/100000000 ∧
    (isclose1 (([("A", (3 : ℚ)), ("B", 1)].map (fun p => p.2)).sum) = false →
      pfW8.rescaled = true ∧
      pfW8.weights = [("A", (3 : ℚ)), ("B", 1)].map (fun p =>
        (p.1, p.2 / (([("A", (3 : ℚ)), ("B", 1)].map (fun q => q.2)).sum)))) :=
  c8_weights_renormalized [("A", psRamp), ("B", psConstRet)] [("A", 3), ("B", 1)] pfW8
    (by simp)
    (by unfold mkPortfolio mkPortfolioKeys; norm_num [isclose1, sameKeys, pfW8])

/-- With nonempty holdings, `get_portfolio_returns` is the weighted series of
`portfolio_return_vals`, never the scalar-0 degenerate value. -/
theorem gpr_series_of_ne (P : Portfolio) (h : P.holdings ≠ []) :
    get_portfolio_returns P = .series (portfolio_return_vals P) := by
  rcases hh : P.holdings with _ | ⟨x, t⟩
  · exact absurd hh h
  · simp [get_portfolio_returns, portfolio_return_vals, hh]

/-- The squared sample standard deviation is never negative. -/
theorem varO_nonneg (l : List ℚ) (v : ℚ) (h : varO l = some v) : 0 ≤ v := by
  unfold varO at h
  split at h
  · rename_i hlen
    injection h with h
    rw [← h]
    unfold svarQ
    apply div_nonneg
    · apply List.sum_nonneg
      intro x hx
      rcases List.mem_map.mp hx with ⟨y, _, hy⟩
      rw [← hy]
      positivity
    · have : (2 : ℚ) ≤ (l.length : ℚ) := by exact_mod_cast hlen
      linarith
  · cases h

/-- A nonempty list has `meanO = some meanQ`. -/
theorem meanO_of_two (l : List ℚ) (h : 2 ≤ l.length) : meanO l = some (meanQ l) := by
  unfold meanO
  rw [if_neg]
  simp only [List.isEmpty_iff]
  intro hl
  rw [hl] at h
  simp at h

/-- C4 amended: `Portfolio.get_stats` applies the same mean/std formulas as
the per-asset engine to the portfolio return stream, but its Sharpe ratio is
the *unguarded* `mean/std*sqrt(252)`: whenever that value is finite it agrees
with the guarded per-asset Sharpe of the same stream, and when the stream has
exactly zero sample standard deviation the division by zero goes through
unguarded (non-finite result, `none`) while the per-asset engine would return
`0` on the same stream. -/
theorem c4_portfolio_stats_unguarded (P : Portfolio) (st : PortStats)
    (hne : P.holdings ≠ []) (h : portfolio_get_stats P = .ok st) :
    st.mean_return = meanO (portfolio_return_vals P) ∧
    st.var_return = varO (portfolio_return_vals P) ∧
    st.ann_return = (meanO (portfolio_return_vals P)).map (fun m => 252 * m) ∧
    st.ann_vol_sq = (varO (portfolio_return_vals P)).map (fun v => 252 * v) ∧
    (varO (portfolio_return_vals P) = some 0 →
      st.sharpe_sq = none ∧ sharpe_sq_series (portfolio_return_vals P) = 0) ∧
    (st.sharpe_sq ≠ none →
      st.sharpe_sq = some (sharpe_sq_series (portfolio_return_vals P))) := by
  unfold portfolio_get_stats at h
  rw [gpr_series_of_ne P hne] at h
  have hst := (Except.ok.injEq _ _).mp h
  rw [← hst]
  refine ⟨rfl, rfl, rfl, rfl, ?_, ?_⟩
  · intro hv0
    have hlen : 2 ≤ (portfolio_return_vals P).length := by
      by_contra hl
      rw [varO, if_neg hl] at hv0
      cases hv0
    rw [meanO_of_two _ hlen, hv0]
    constructor
    · simp
    · unfold sharpe_sq_series
      rw [hv0]
      simp
  · intro hfin
    rcases hm : meanO (portfolio_return_vals P) with _ | m
    · simp [hm] at hfin
    · rcases hv : varO (portfolio_return_vals P) with _ | v
      · simp [hm, hv] at hfin
      · by_cases hvz : v = 0
        · simp [hm, hv, hvz] at hfin
        · have hlen : 2 ≤ (portfolio_return_vals P).length := by
            by_contra hl
            rw [varO, if_neg hl] at hv
            cases hv
          have hmq : m = meanQ (portfolio_return_vals P) :=
            (Option.some.injEq _ _).mp (hm.symm.trans (meanO_of_two _ hlen))
          have hpos : 0 < v := lt_of_le_of_ne (varO_nonneg _ _ hv) (Ne.symm hvz)
          have hser : sharpe_sq_series (portfolio_return_vals P) =
              sharpeSqFormula (meanQ (portfolio_return_vals P)) v := by
            unfold sharpe_sq_series
            rw [hv]
            simp [hpos]
          simp [hm, hv, hvz, hser, hmq]

/-- C4 witness: the amended statement instantiated on the concrete portfolio
`pfRamp` (return stream `[1/10, 1/5]`, nonzero variance) and its stats dict
`stRamp`. -/
theorem c4_witness :
    stRamp.mean_return = meanO (portfolio_return_vals pfRamp) ∧
    stRamp.var_return = varO (portfolio_return_vals pfRamp) ∧
    stRamp.ann_return = (meanO (portfolio_return_vals pfRamp)).map (fun m => 252 * m) ∧
    stRamp.ann_vol_sq = (varO (portfolio_return_vals pfRamp)).map (fun v => 252 * v) ∧
    (varO (portfolio_return_vals pfRamp) = some 0 →
      stRamp.sharpe_sq = none ∧ sharpe_sq_series (portfolio_return_vals pfRamp) = 0) ∧
    (stRamp.sharpe_sq ≠ none →
      stRamp.sharpe_sq = some (sharpe_sq_series (portfolio_return_vals pfRamp))) :=
  c4_portfolio_stats_unguarded pfRamp stRamp (by simp [pfRamp])
    (by norm_num [portfolio_get_stats, get_portfolio_returns, pfRamp, psRamp, minRowLen,
      get_returns, closesOf, pct_change, weightOf, List.find?, List.range_succ,
      meanO, meanQ, varO, svarQ, sharpeSqFormula, stRamp,
      show |(3 : ℚ)/20| = 3/20 from abs_of_pos (by norm_num)])

/-- `pct_change` written as the spec's indexwise formula
`returns[i] = close[i+1]/close[i] - 1`. -/
theorem pct_change_formula : (l : List ℚ) → pct_change l =
    (List.range (l.length - 1)).map (fun i => l.getD (i + 1) 0 / l.getD i 0 - 1)
  | [] => rfl
  | [_] => rfl
  | a :: b :: rest => by
    have h : pct_change (a :: b :: rest) = (b / a - 1) :: pct_change (b :: rest) := rfl
    rw [h, pct_change_formula (b :: rest)]
    rw [show (a :: b :: rest).length - 1 = ((b :: rest).length - 1) + 1 by simp]
    rw [List.range_succ_eq_map, List.map_cons, List.map_map]
    rfl

/-- C2 amended: every constructed `PriceSeries` is sorted *non-decreasingly*
by date (duplicate dates are not rejected — see the counterexample — so
strict ascent fails, but the sort does hold), and the return stream follows
the claimed formula `returns[i] = close[i+1]/close[i] - 1` with length
`n - 1`. -/
theorem c2_sorted_and_returns (sym src aty : String) (df : DataFrame)
    (ps : PriceSeries) (dfA : DataFrame)
    (h : construct sym df src aty = (.ok ps, dfA)) :
    List.Chain' (· ≤ ·) (datesOf ps) ∧
    (get_returns ps).length = (closesOf ps).length - 1 ∧
    get_returns ps = (List.range ((closesOf ps).length - 1)).map (fun i =>
      (closesOf ps).getD (i + 1) 0 / (closesOf ps).getD i 0 - 1) := by
  have h1 := congrArg Prod.fst h
  simp only [construct] at h1
  set rows0 := (if df.datesDt then df else { df with datesDt := true }).rows with hrows0
  split at h1
  · exact absurd h1 (by simp)
  · have hps := (Except.ok.injEq _ _).mp h1
    have hrows : ps.data.rows = sortRows rows0 := by rw [← hps]
    refine ⟨?_, pct_change_length _, pct_change_formula _⟩
    have hsorted : List.Sorted rowLe (sortRows rows0) :=
      List.sorted_insertionSort rowLe _
    unfold datesOf
    rw [hrows]
    apply List.Pairwise.chain'
    rw [List.pairwise_map]
    exact hsorted

/-- C2 witness: the amended statement instantiated on the series built from
an unsorted, string-dated frame (rows day 2 before day 1). -/
theorem c2_witness :
    List.Chain' (· ≤ ·) (datesOf psW2) ∧
    (get_returns psW2).length = (closesOf psW2).length - 1 ∧
    get_returns psW2 = (List.range ((closesOf psW2).length - 1)).map (fun i =>
      (closesOf psW2).getD (i + 1) 0 / (closesOf psW2).getD i 0 - 1) :=
  c2_sorted_and_returns "W" "t" "u" { rows := [(2, 50), (1, 100)], datesDt := false }
    psW2 { rows := [(2, 50), (1, 100)], datesDt := true }
    (by simp [construct, sortRows, List.insertionSort, List.orderedInsert, rowLe, psW2])

/-- `cumprod` entry `k` is the product of the first `k + 1` factors. -/
theorem cumprodAux_eq_map (a : ℚ) : (l : List ℚ) →
    cumprodAux a l = (List.range l.length).map (fun k => a * ((l.take (k + 1)).prod))
  | [] => by simp [cumprodAux]
  | x :: xs => by
    rw [cumprodAux, cumprodAux_eq_map (a * x) xs, List.length_cons,
      List.range_succ_eq_map, List.map_cons, List.map_map]
    refine congrArg₂ _ (by simp) ?_
    apply List.map_congr_left
    intro k _
    simp [List.take_succ_cons, mul_assoc]

/-- A Monte-Carlo row: `v0 * (1 + draws).cumprod()` equals the claim's
pointwise value path `v0 * Π_{j ≤ k} (1 + draw j)`. -/
theorem mc_row_eq (g : ℕ → ℚ) (d : ℕ) (v0 : ℚ) :
    (cumprodQ (((List.range d).map g).map (fun r => 1 + r))).map (fun c => v0 * c) =
    (List.range d).map (fun k =>
      v0 * ((List.range (k + 1)).map (fun j => 1 + g j)).prod) := by
  rw [cumprodQ, cumprodAux_eq_map, List.map_map, List.map_map, List.length_map,
    List.length_range]
  apply List.map_congr_left
  intro k hk
  have hkd : k + 1 ≤ d := List.mem_range.mp hk
  have ht : List.take (k + 1) (List.map ((fun r => 1 + r) ∘ g) (List.range d)) =
      List.map ((fun r => 1 + r) ∘ g) (List.range (k + 1)) := by
    rw [← List.map_take, List.take_range, min_eq_left hkd]
  simp only [Function.comp_apply, List.map_map, ht, one_mul]
  rfl

/-- C9 amended: with *nonempty* holdings (the constructible empty portfolio
instead raises `AttributeError` — see the counterexample),
`monte_carlo_simulation` returns exactly the matrix described by the claim
(`mcClaim`): `n` rows, each of length `d`, the entry at `(i, k)` being
`v0 * Π_{j ≤ k} (1 + normal(μ, σ, i, j))` over draws fitted to the portfolio
return stream's mean and (squared) std. -/
theorem c9_monte_carlo_shape_and_paths (P : Portfolio)
    (normal : Option ℚ → Option ℚ → ℕ → ℕ → ℚ) (n d : ℕ) (v0 : ℚ)
    (h : P.holdings ≠ []) :
    monte_carlo_simulation P normal n d v0 =
      .ok (mcClaim normal (meanO (portfolio_return_vals P))
        (varO (portfolio_return_vals P)) n d v0) ∧
    (mcClaim normal (meanO (portfolio_return_vals P))
        (varO (portfolio_return_vals P)) n d v0).length = n ∧
    (mcClaim normal (meanO (portfolio_return_vals P))
        (varO (portfolio_return_vals P)) n d v0).map List.length =
      List.replicate n d := by
  refine ⟨?_, by simp [mcClaim], ?_⟩
  · unfold monte_carlo_simulation
    rw [gpr_series_of_ne P h]
    unfold mcClaim
    refine congrArg _ (List.map_congr_left fun i _ => ?_)
    exact mc_row_eq (normal (meanO (portfolio_return_vals P))
      (varO (portfolio_return_vals P)) i) d v0
  · unfold mcClaim
    rw [List.map_map]
    apply List.eq_replicate_iff.mpr
    refine ⟨by simp, ?_⟩
    intro b hb
    rcases List.mem_map.mp hb with ⟨i, _, hi⟩
    simpa using hi.symm

/-- C9 witness: the theorem instantiated on the concrete portfolio `pfRamp`,
a concrete sampling oracle, 2 simulations, 3 days, initial value 100. -/
theorem c9_witness :
    monte_carlo_simulation pfRamp (fun _ _ i j => (i + j : ℚ) / 10) 2 3 100 =
      .ok (mcClaim (fun _ _ i j => (i + j : ℚ) / 10)
        (meanO (portfolio_return_vals pfRamp))
        (varO (portfolio_return_vals pfRamp)) 2 3 100) ∧
    (mcClaim (fun _ _ i j => (i + j : ℚ) / 10)
        (meanO (portfolio_return_vals pfRamp))
        (varO (portfolio_return_vals pfRamp)) 2 3 100).length = 2 ∧
    (mcClaim (fun _ _ i j => (i + j : ℚ) / 10)
        (meanO (portfolio_return_vals pfRamp))
        (varO (portfolio_return_vals pfRamp)) 2 3 100).map List.length =
      List.replicate 2 3 :=
  c9_monte_carlo_shape_and_paths pfRamp (fun _ _ i j => (i + j : ℚ) / 10) 2 3 100
    (by simp [pfRamp])

/-- C9 counterexample: the empty portfolio is successfully constructible
(the normalizing comprehension over the empty weights dict performs no
division and the key-set check trivially passes), yet on it
`monte_carlo_simulation` does not return an `(n, d)` array for any `n`, `d`:
the portfolio return stream is the Python int `0`, whose missing `.mean()`
raises `AttributeError`. -/
theorem c9_counterexample :
    (mkPortfolio [] []).map
      (fun P => monte_carlo_simulation P (fun _ _ _ _ => 0) 5 4 100) =
      .ok (.error .attributeError) := by
  unfold mkPortfolio mkPortfolioKeys
  norm_num [isclose1, sameKeys, Except.map, monte_carlo_simulation,
    get_portfolio_returns]

/-- The minimum of a list is a member and a lower bound. -/
theorem minQ_eq_some : (l : List ℚ) → (v : ℚ) → minQ l = some v →
    v ∈ l ∧ ∀ x ∈ l, v ≤ x
  | [], v, h => by simp [minQ] at h
  | x :: xs, v, h => by
    rw [minQ] at h
    injection h with h
    rcases hm : minQ xs with _ | m
    · rw [hm] at h
      simp only [Option.elim_none] at h
      have hxs : xs = [] := by
        cases xs with
        | nil => rfl
        | cons y ys => simp [minQ] at hm
      subst hxs
      subst h
      simp
    · rw [hm] at h
      simp only [Option.elim_some] at h
      obtain ⟨hmem, hbound⟩ := minQ_eq_some xs m hm
      subst h
      constructor
      · rcases min_choice x m with hc | hc <;> rw [hc]
        · simp
        · simp [hmem]
      · intro y hy
        rcases List.mem_cons.mp hy with rfl | hys
        · exact min_le_left _ _
        · exact le_trans (min_le_right _ _) (hbound y hys)

/-- Every compounding factor `1 + return` of a positive close series is
positive (it equals the close ratio). -/
theorem pct_factors_pos : (closes : List ℚ) → (∀ c ∈ closes, 0 < c) →
    ∀ f ∈ (pct_change closes).map (fun r => 1 + r), 0 < f
  | [], _ => by simp [pct_change]
  | [_], _ => by simp [pct_change]
  | a :: b :: rest, hpos => by
    intro f hf
    rw [show pct_change (a :: b :: rest) = (b / a - 1) :: pct_change (b :: rest)
      from rfl, List.map_cons] at hf
    rcases List.mem_cons.mp hf with rfl | hf2
    · have ha : 0 < a := hpos a (by simp)
      have hb : 0 < b := hpos b (by simp)
      have : (1 : ℚ) + (b / a - 1) = b / a := by ring
      rw [this]
      exact div_pos hb ha
    · exact pct_factors_pos (b :: rest)
        (fun c hc => hpos c (by simp at hc ⊢; tauto)) f hf2

/-- A cumulative product of positive factors from a positive seed is
pointwise positive. -/
theorem cumprodAux_pos (a : ℚ) (ha : 0 < a) : (l : List ℚ) →
    (∀ x ∈ l, 0 < x) → ∀ y ∈ cumprodAux a l, 0 < y
  | [], _ => by simp [cumprodAux]
  | x :: xs, hl => by
    intro y hy
    rw [cumprodAux] at hy
    have hax : 0 < a * x := mul_pos ha (hl x (by simp))
    rcases List.mem_cons.mp hy with rfl | hy2
    · exact hax
    · exact cumprodAux_pos (a * x) hax xs
        (fun z hz => hl z (by simp [hz])) y hy2

/-- Each running-max-relative drawdown over a positive list is ≤ 0. -/
theorem dd_aux_nonpos (m : ℚ) (hm : 0 < m) : (l : List ℚ) →
    (∀ x ∈ l, 0 < x) →
    ∀ dv ∈ List.zipWith (fun x mm => (x - mm) / mm) l (runMaxAux m l), dv ≤ 0
  | [], _ => by simp [runMaxAux]
  | x :: xs, hl => by
    intro dv hdv
    rw [runMaxAux, List.zipWith_cons_cons] at hdv
    have hmx : 0 < max m x := lt_of_lt_of_le hm (le_max_left m x)
    rcases List.mem_cons.mp hdv with rfl | hdv2
    · apply div_nonpos_iff.mpr
      right
      exact ⟨sub_nonpos.mpr (le_max_right m x), le_of_lt hmx⟩
    · exact dd_aux_nonpos (max m x) hmx xs
        (fun z hz => hl z (by simp [hz])) dv hdv2

/-- The running-max drawdowns over a positive list all vanish exactly when
the list, prefixed with the seed maximum, is non-decreasing. -/
theorem dd_aux_zero_iff (m : ℚ) (hm : 0 < m) : (l : List ℚ) →
    (∀ x ∈ l, 0 < x) →
    ((∀ dv ∈ List.zipWith (fun x mm => (x - mm) / mm) l (runMaxAux m l), dv = 0) ↔
      List.Chain' (· ≤ ·) (m :: l))
  | [], _ => by simp [runMaxAux]
  | x :: xs, hl => by
    rw [runMaxAux, List.zipWith_cons_cons, List.chain'_cons]
    have hx : 0 < x := hl x (by simp)
    by_cases hmx : m ≤ x
    · rw [max_eq_right hmx]
      have hiff := dd_aux_zero_iff x hx xs (fun z hz => hl z (by simp [hz]))
      constructor
      · intro hall
        exact ⟨hmx, hiff.mp (fun dv hdv => hall dv (by simp [hdv]))⟩
      · intro hch
        intro dv hdv
        rcases List.mem_cons.mp hdv with rfl | hdv2
        · simp
        · exact hiff.mpr hch.2 dv hdv2
    · have hxm : x < m := not_le.mp hmx
      rw [max_eq_left (le_of_lt hxm)]
      constructor
      · intro hall
        have h0 := hall ((x - m) / m) (by simp)
        have hneg : (x - m) / m < 0 :=
          div_neg_of_neg_of_pos (sub_neg.mpr hxm) hm
        rw [h0] at hneg
        exact absurd hneg (by norm_num)
      · intro hch
        exact absurd hch.1 hmx

/-- The minimum drawdown over a positive cumulative list is ≤ 0 (the first
drawdown is always 0), and it is 0 exactly when the list is non-decreasing. -/
theorem dd_min_zero_iff (c : List ℚ) (hc : ∀ x ∈ c, 0 < x) (v : ℚ)
    (hv : minQ (List.zipWith (fun x m => (x - m) / m) c (runMax c)) = some v) :
    v ≤ 0 ∧ (v = 0 ↔ List.Chain' (· ≤ ·) c) := by
  match c, hc with
  | [], _ => simp [runMax, minQ] at hv
  | x :: xs, hc =>
    have hx : 0 < x := hc x (by simp)
    have hxs : ∀ y ∈ xs, 0 < y := fun y hy => hc y (by simp [hy])
    have hdd : List.zipWith (fun x m => (x - m) / m) (x :: xs) (runMax (x :: xs)) =
        0 :: List.zipWith (fun x m => (x - m) / m) xs (runMaxAux x xs) := by
      rw [runMax, List.zipWith_cons_cons, sub_self, zero_div]
    rw [hdd] at hv
    obtain ⟨hvmem, hvle⟩ := minQ_eq_some _ _ hv
    have hle0 : v ≤ 0 := hvle 0 (by simp)
    refine ⟨hle0, ?_⟩
    constructor
    · intro hv0
      have hall : ∀ dv ∈ List.zipWith (fun x m => (x - m) / m) xs (runMaxAux x xs),
          dv = 0 := by
        intro dv hdv
        have h1 := dd_aux_nonpos x hx xs hxs dv hdv
        have h2 := hvle dv (by simp [hdv])
        rw [hv0] at h2
        linarith
      exact (dd_aux_zero_iff x hx xs hxs).mp hall
    · intro hchain
      have hall := (dd_aux_zero_iff x hx xs hxs).mpr hchain
      rcases List.mem_cons.mp hvmem with h0 | hmem
      · exact h0
      · exact hall v hmem

/-- The cumulative-return index of a positive close series is non-decreasing
exactly when the closes after the first observation are. -/
theorem cumprodAux_chain_iff (acc : ℚ) (hacc : 0 < acc) (b : ℚ) (hb : 0 < b) :
    (rest : List ℚ) → (∀ c ∈ rest, 0 < c) →
    (List.Chain' (· ≤ ·)
      (cumprodAux acc ((pct_change (b :: rest)).map (fun r => 1 + r))) ↔
     List.Chain' (· ≤ ·) rest)
  | [], _ => by simp [pct_change, cumprodAux]
  | r0 :: rest', hrest => by
    have hr0 : 0 < r0 := hrest r0 (by simp)
    have hrest' : ∀ c ∈ rest', 0 < c := fun c hc => hrest c (by simp [hc])
    rw [show (pct_change (b :: r0 :: rest')).map (fun r => 1 + r) =
        (1 + (r0 / b - 1)) :: ((pct_change (r0 :: rest')).map (fun r => 1 + r))
      from rfl, cumprodAux]
    have hacc' : 0 < acc * (1 + (r0 / b - 1)) := by
      rw [show (1 : ℚ) + (r0 / b - 1) = r0 / b by ring]
      exact mul_pos hacc (div_pos hr0 hb)
    rw [List.chain'_cons', List.chain'_cons']
    apply and_congr
    · cases rest' with
      | nil => simp [pct_change, cumprodAux]
      | cons r1 rest'' =>
        have hr1 : 0 < r1 := hrest' r1 (by simp)
        rw [show (pct_change (r0 :: r1 :: rest'')).map (fun r => 1 + r) =
            (1 + (r1 / r0 - 1)) :: ((pct_change (r1 :: rest'')).map (fun r => 1 + r))
          from rfl, cumprodAux]
        simp only [List.head?_cons, Option.mem_def, Option.some.injEq,
          forall_eq']
        rw [show (1 : ℚ) + (r1 / r0 - 1) = r1 / r0 by ring]
        rw [le_mul_iff_one_le_right hacc', one_le_div hr0]
    · exact cumprodAux_chain_iff (acc * (1 + (r0 / b - 1))) hacc' r0 hr0 rest' hrest'

/-- The `max_drawdown` of any close series is, when defined, ≤ 0; for a
positive close series it is 0 exactly when the closes *after the first
observation* are non-decreasing. -/
theorem max_drawdown_le_zero_iff (closes : List ℚ) (v : ℚ)
    (hpos : ∀ c ∈ closes, 0 < c)
    (hv : calculate_max_drawdown closes = some v) :
    v ≤ 0 ∧ (v = 0 ↔ List.Chain' (· ≤ ·) closes.tail) := by
  have hc : ∀ x ∈ cumprodQ ((pct_change closes).map (fun r => 1 + r)), 0 < x :=
    cumprodAux_pos 1 one_pos _ (pct_factors_pos closes hpos)
  simp only [calculate_max_drawdown] at hv
  have hmain := dd_min_zero_iff _ hc v hv
  refine ⟨hmain.1, hmain.2.trans ?_⟩
  match closes, hpos with
  | [], _ => exact Iff.rfl
  | [a], _ => exact Iff.rfl
  | a :: b :: rest, hpos =>
    exact cumprodAux_chain_iff 1 one_pos a (hpos a (by simp)) (b :: rest)
      (fun c hc2 => hpos c (by simp at hc2 ⊢; tauto))

/-- Inversion of a successful construction: the stored rows are the sorted
input rows and the stats are computed from the stored close column. -/
theorem construct_ok_inv (sym src aty : String) (df : DataFrame)
    (ps : PriceSeries) (dfA : DataFrame)
    (h : construct sym df src aty = (.ok ps, dfA)) :
    ps.data.rows =
      sortRows ((if df.datesDt then df else { df with datesDt := true }).rows) ∧
    ps.stats = calculate_basic_stats (ps.data.rows.map (fun r => r.2)) := by
  have h1 := congrArg Prod.fst h
  simp only [construct] at h1
  set rows0 := (if df.datesDt then df else { df with datesDt := true }).rows
  split at h1
  · exact absurd h1 (by simp)
  · have hps := (Except.ok.injEq _ _).mp h1
    exact ⟨by rw [← hps], by rw [← hps]⟩

/-- C3 amended: for every constructed `PriceSeries` with positive closes
whose `max_drawdown` is defined (at least two rows), the stored
`max_drawdown` is ≤ 0, and it is 0 *iff the closes from the second
observation onward are non-decreasing* — the first observation is excluded,
because the leading NaN of `pct_change` hides the initial peak from the
cumulative index (see the counterexample `[100, 90]`). -/
theorem c3_max_drawdown (sym src aty : String) (df : DataFrame)
    (ps : PriceSeries) (dfA : DataFrame) (v : ℚ)
    (h : construct sym df src aty = (.ok ps, dfA))
    (hpos : ∀ c ∈ closesOf ps, 0 < c)
    (hv : ps.stats.max_drawdown = some v) :
    v ≤ 0 ∧ (v = 0 ↔ List.Chain' (· ≤ ·) (closesOf ps).tail) := by
  obtain ⟨hrows, hstats⟩ := construct_ok_inv sym src aty df ps dfA h
  rw [hstats] at hv
  exact max_drawdown_le_zero_iff (closesOf ps) v hpos hv

/-- C3 witness: the amended statement instantiated on the falling series
`psDown` (closes `[100, 90]`, drawdown value 0, tail `[90]` trivially
non-decreasing). -/
theorem c3_witness :
    (0 : ℚ) ≤ 0 ∧ ((0 : ℚ) = 0 ↔ List.Chain' (· ≤ ·) (closesOf psDown).tail) :=
  c3_max_drawdown "A" "t" "u" { rows := [(1, 100), (2, 90)], datesDt := true }
    psDown { rows := [(1, 100), (2, 90)], datesDt := true } 0
    (by simp [construct, sortRows, List.insertionSort, List.orderedInsert, rowLe, psDown])
    (by norm_num [closesOf, psDown])
    (by norm_num [psDown, calculate_basic_stats, calculate_max_drawdown, pct_change,
      cumprodQ, cumprodAux, runMax, runMaxAux, minQ])
